import Mathlib

/-
Shallow embedding of the playback-orchestration core of the MUSIC_PRO_BOT
repository, and proofs about it.

Embedded source files:
  - src/MUSIC_PRO_BOT/core/queue_manager.py  (QueueItem, QueueManager)
  - src/MUSIC_PRO_BOT/core/bot_engine.py     (ChatContext, MusicBotEngine)
  - src/MUSIC_PRO_BOT/core/voice_client.py   (VoiceClient)

Modelling conventions:
  - Python dicts keyed by chat id are modelled as association lists
    (`List (ChatId × α)`): `dictLookup` is `d[k]` / `k in d`,
    `dictInsert` is `d[k] = v` (replace in place if present, append at the
    end otherwise — Python dicts preserve insertion order), `dictModify`
    mutates the value under an existing key, and key deletion is `dictErase`.
  - `collections.deque(xs, maxlen=m)` keeps only the LAST `m` elements of
    `xs`; this is `takeRightN m xs` below.
  - `datetime.now()` timestamps are modelled as a `Nat` supplied by the
    caller of each operation (explicit clock passing);
    `isoformat`/`fromisoformat` round-trip a datetime exactly, so
    serialization of a timestamp is modelled as carrying the same `Nat`.
  - Tracks are untyped dicts in the source, opaque to the core; they are
    modelled as an opaque value type with decidable equality.
  - Exceptions are modelled with `Except`; mutations performed before an
    exception is raised stay visible in the returned state, exactly as for
    the in-place mutations of the Python objects.
-/

namespace MusicBot

abbrev ChatId := Int
abbrev UserId := Int

/-- Opaque track value: the source passes tracks around as dicts and the
queue/orchestration core never inspects them beyond identity. -/
structure Track where
  id : Nat
deriving DecidableEq, Repr

/-- Lookup in a Python dict modelled as an association list (first match). -/
def dictLookup {α : Type} (k : ChatId) : List (ChatId × α) → Option α
  | [] => none
  | (k₀, v₀) :: rest => if k = k₀ then some v₀ else dictLookup k rest

/-- `d[k] = v` on a Python dict: replace in place if the key is present,
append at the end otherwise (Python dicts preserve insertion order). -/
def dictInsert {α : Type} (k : ChatId) (v : α) : List (ChatId × α) → List (ChatId × α)
  | [] => [(k, v)]
  | (k₀, v₀) :: rest => if k = k₀ then (k, v) :: rest else (k₀, v₀) :: dictInsert k v rest

/-- In-place mutation of the value stored under a key (no-op if absent). -/
def dictModify {α : Type} (k : ChatId) (f : α → α) : List (ChatId × α) → List (ChatId × α)
  | [] => []
  | (k₀, v₀) :: rest =>
      if k₀ = k then (k₀, f v₀) :: rest else (k₀, v₀) :: dictModify k f rest

/-- `del d[k]` on a Python dict. -/
def dictErase {α : Type} (k : ChatId) : List (ChatId × α) → List (ChatId × α)
  | [] => []
  | (k₀, v₀) :: rest => if k₀ = k then rest else (k₀, v₀) :: dictErase k rest

theorem dictLookup_insert {α : Type} (k k' : ChatId) (v : α) (d : List (ChatId × α)) :
    dictLookup k (dictInsert k' v d) = if k = k' then some v else dictLookup k d := by
  induction d with
  | nil =>
      by_cases h : k = k' <;> simp [dictInsert, dictLookup, h]
  | cons p rest ih =>
      obtain ⟨k₀, v₀⟩ := p
      by_cases h1 : k' = k₀
      · subst h1
        by_cases h2 : k = k' <;> simp [dictInsert, dictLookup, h2]
      · by_cases h2 : k = k₀
        · subst h2
          have h1' : ¬ k = k' := fun h => h1 h.symm
          simp [dictInsert, dictLookup, h1, h1', ih]
        · simp [dictInsert, dictLookup, h1, h2, ih]

theorem dictInsert_insert {α : Type} (k : ChatId) (v w : α) (d : List (ChatId × α)) :
    dictInsert k v (dictInsert k w d) = dictInsert k v d := by
  induction d with
  | nil => simp [dictInsert]
  | cons p rest ih =>
      obtain ⟨k₀, v₀⟩ := p
      by_cases h : k = k₀ <;> simp [dictInsert, h, ih]

/-- Value of `deque(xs, maxlen=m)`: the last `m` elements of `xs`. -/
def takeRightN {α : Type} (m : Nat) (xs : List α) : List α :=
  xs.drop (xs.length - m)

theorem takeRightN_length_le {α : Type} (m : Nat) (xs : List α) :
    (takeRightN m xs).length ≤ m := by
  simp only [takeRightN, List.length_drop]
  omega

theorem takeRightN_of_le {α : Type} {m : Nat} {xs : List α} (h : xs.length ≤ m) :
    takeRightN m xs = xs := by
  simp only [takeRightN, Nat.sub_eq_zero_of_le h, List.drop_zero]

/-- Python slice-endpoint normalization: negative indices count from the
end, then the result is clamped into `[0, n]`. -/
def pySliceIdx (n : Nat) (i : Int) : Nat :=
  if i < 0 then (max 0 (i + n)).toNat else min i.toNat n

/-- `xs[a:b]` in Python (step 1). -/
def pySlice {α : Type} (xs : List α) (a b : Int) : List α :=
  (xs.take (pySliceIdx xs.length b)).drop (pySliceIdx xs.length a)

/-- `QueueItem` from queue_manager.py: track, requesting user, enqueue
timestamp and played flag. -/
structure QueueItem where
  track : Track
  user_id : UserId
  added_at : Nat
  played : Bool
deriving DecidableEq, Repr

/-- Serialized form of a `QueueItem` (`QueueItem.to_dict`): the `added_at`
isoformat string is modelled by the timestamp itself (exact round-trip),
and `played` is an optional JSON field read back with default `False`. -/
structure SerItem where
  track : Track
  user_id : UserId
  added_at : Nat
  played : Option Bool
deriving DecidableEq, Repr

/-- `QueueItem.to_dict`. -/
def QueueItem.to_dict (it : QueueItem) : SerItem :=
  ⟨it.track, it.user_id, it.added_at, some it.played⟩

/-- `QueueItem.from_dict`: `played` is read with `data.get("played", False)`. -/
def QueueItem.from_dict (s : SerItem) : QueueItem :=
  ⟨s.track, s.user_id, s.added_at, s.played.getD false⟩

theorem from_dict_to_dict (it : QueueItem) : QueueItem.from_dict it.to_dict = it := rfl

/-- The state of a `QueueManager` (queue_manager.py): per-chat queues
(deques bounded by `max_queue_size`) and per-chat history lists. The
`_cache` field of the source is never read or written meaningfully and is
omitted. -/
structure QueueManager where
  max_queue_size : Nat
  max_history : Nat
  queues : List (ChatId × List QueueItem)
  history : List (ChatId × List QueueItem)
deriving DecidableEq, Repr

/-- `QueueManager.__init__(max_queue_size, max_history)`. -/
def QueueManager.init (max_queue_size : Nat := 100) (max_history : Nat := 50) :
    QueueManager :=
  ⟨max_queue_size, max_history, [], []⟩

/-- Error raised by `add_to_queue` (`QueueError`). -/
inductive QueueErr where
  | queueFull
deriving DecidableEq, Repr

/-- `l[-m:]` in Python: note that for `m = 0` this is the WHOLE list
(`l[-0:] == l[0:]`), not the empty suffix. -/
def pyTakeLast {α : Type} (m : Nat) (xs : List α) : List α :=
  if m = 0 then xs else takeRightN m xs

/-- `QueueManager.add_to_history(chat_id, item)`: create the chat's history
list if absent, append, and trim to the last `max_history` entries when the
bound is exceeded. -/
def add_to_history (qm : QueueManager) (c : ChatId) (it : QueueItem) : QueueManager :=
  let h := (dictLookup c qm.history).getD []
  let h2 := h ++ [it]
  let h3 := if qm.max_history < h2.length then pyTakeLast qm.max_history h2 else h2
  { qm with history := dictInsert c h3 qm.history }

/-- `QueueManager.add_to_queue(chat_id, track, user_id)`: create the chat's
deque if absent, raise `QueueError` if the queue is full, else append a
fresh unplayed `QueueItem` stamped with the current time `t`. -/
def add_to_queue (qm : QueueManager) (c : ChatId) (tr : Track) (u : UserId) (t : Nat) :
    Except QueueErr Unit × QueueManager :=
  let qm1 := match dictLookup c qm.queues with
    | none => { qm with queues := dictInsert c [] qm.queues }
    | some _ => qm
  let q := (dictLookup c qm1.queues).getD []
  if qm1.max_queue_size ≤ q.length then
    (.error .queueFull, qm1)
  else
    (.ok (), { qm1 with queues := dictInsert c (q ++ [⟨tr, u, t, false⟩]) qm1.queues })

/-- `QueueManager.get_next(chat_id)`: pop the head of the chat's queue,
mark it played, append it to the history, and return it; `None` when the
chat has no queue or an empty one. -/
def get_next (qm : QueueManager) (c : ChatId) : Option QueueItem × QueueManager :=
  match dictLookup c qm.queues with
  | none => (none, qm)
  | some [] => (none, qm)
  | some (it :: rest) =>
      let it' := { it with played := true }
      let qm1 := { qm with queues := dictInsert c rest qm.queues }
      (some it', add_to_history qm1 c it')

/-- `QueueManager.peek_next(chat_id)`. -/
def peek_next (qm : QueueManager) (c : ChatId) : Option QueueItem :=
  match dictLookup c qm.queues with
  | none => none
  | some [] => none
  | some (it :: _) => some it

/-- `QueueManager.remove_track(chat_id, position)`: `None` when the chat
has no queue or the (0-based, int) position is out of range; otherwise the
queue is rebuilt as `deque(items-without-position, maxlen=max_queue_size)`. -/
def remove_track (qm : QueueManager) (c : ChatId) (pos : Int) :
    Option QueueItem × QueueManager :=
  match dictLookup c qm.queues with
  | none => (none, qm)
  | some q =>
      if pos < 0 ∨ (q.length : Int) ≤ pos then (none, qm)
      else
        let q2 := takeRightN qm.max_queue_size (q.eraseIdx pos.toNat)
        (q.get? pos.toNat, { qm with queues := dictInsert c q2 qm.queues })

/-- `QueueManager.move_track(chat_id, from_pos, to_pos)`: both positions
validated against the original length; pop then insert; the queue is
rebuilt as a bounded deque. -/
def move_track (qm : QueueManager) (c : ChatId) (fromPos toPos : Int) :
    Bool × QueueManager :=
  match dictLookup c qm.queues with
  | none => (false, qm)
  | some q =>
      if fromPos < 0 ∨ (q.length : Int) ≤ fromPos ∨ toPos < 0 ∨ (q.length : Int) ≤ toPos then
        (false, qm)
      else
        match q.get? fromPos.toNat with
        | none => (false, qm)
        | some it =>
            let q2 := takeRightN qm.max_queue_size
              ((q.eraseIdx fromPos.toNat).insertIdx toPos.toNat it)
            (true, { qm with queues := dictInsert c q2 qm.queues })

/-- Selection of `random.shuffle`'s output order, modelled as an index
sequence: every permutation the source can produce is `applyPerm` of the
index list of its reordering. -/
def applyPerm {α : Type} (σ : List Nat) (xs : List α) : List α :=
  σ.filterMap (fun i => xs.get? i)

/-- `QueueManager.shuffle_queue(chat_id)`: false when the chat has no queue
or fewer than 2 entries; otherwise the reordered items are rebuilt as a
bounded deque. `σ` stands for the random reordering chosen by
`random.shuffle`. -/
def shuffle_queue (qm : QueueManager) (c : ChatId) (σ : List Nat) :
    Bool × QueueManager :=
  match dictLookup c qm.queues with
  | none => (false, qm)
  | some q =>
      if q.length < 2 then (false, qm)
      else
        let q2 := takeRightN qm.max_queue_size (applyPerm σ q)
        (true, { qm with queues := dictInsert c q2 qm.queues })

/-- `QueueManager.clear_queue(chat_id)`: `deque.clear()` empties the deque
in place; false when the chat has no queue at all. -/
def clear_queue (qm : QueueManager) (c : ChatId) : Bool × QueueManager :=
  match dictLookup c qm.queues with
  | none => (false, qm)
  | some _ => (true, { qm with queues := dictInsert c [] qm.queues })

/-- `QueueManager.get_queue_size(chat_id)`. -/
def get_queue_size (qm : QueueManager) (c : ChatId) : Nat :=
  ((dictLookup c qm.queues).getD []).length

/-- Result dict of `QueueManager.get_queue`. -/
structure QueuePage where
  items : List SerItem
  total : Nat
  page : Int
  per_page : Int
  pages : Int
deriving DecidableEq, Repr

/-- `pages = (total + per_page - 1) // per_page` of `get_queue` (Python
`//` is floor division, `Int.fdiv`). -/
def gq_pages (total : Nat) (per_page : Int) : Int :=
  ((total : Int) + per_page - 1).fdiv per_page

/-- The two page-validation statements of `get_queue`: `if page < 1: page
= 1` then `if page > pages: page = pages`. -/
def gq_clamp (page pages : Int) : Int :=
  if (if page < 1 then 1 else page) > pages then pages
  else (if page < 1 then 1 else page)

/-- `QueueManager.get_queue(chat_id, page, per_page)`: pagination. On a
missing or empty queue it returns early with `pages = 0` and `page` passed
through UNCHANGED. On a non-empty queue, `pages` is Python floor division
(`//`, i.e. `Int.fdiv`); `per_page = 0` would raise `ZeroDivisionError`
there, modelled as `none`. The page number is clamped below at 1 and above
at `pages` (`gq_clamp`), and the items are the Python slice
`items[start:end]`. -/
def get_queue (qm : QueueManager) (c : ChatId) (page per_page : Int) :
    Option QueuePage :=
  match dictLookup c qm.queues with
  | none => some ⟨[], 0, page, per_page, 0⟩
  | some [] => some ⟨[], 0, page, per_page, 0⟩
  | some items =>
      if per_page = 0 then none
      else
        let total := items.length
        let pages := gq_pages total per_page
        let page2 := gq_clamp page pages
        let start := (page2 - 1) * per_page
        some ⟨(pySlice items start (start + per_page)).map QueueItem.to_dict,
              total, page2, per_page, pages⟩

/-- Serialized `QueueManager` state as written by `save_state` (JSON keys
of the two outer dicts are the decimal chat ids; `load_state` parses them
back with `int`, an exact round-trip, so they are modelled as `ChatId`). -/
structure QMState where
  queues : List (ChatId × List SerItem)
  history : List (ChatId × List SerItem)
deriving DecidableEq, Repr

/-- `QueueManager.save_state`: serialize every queue and history entry with
`QueueItem.to_dict`. -/
def save_state (qm : QueueManager) : QMState :=
  ⟨qm.queues.map (fun p => (p.1, p.2.map QueueItem.to_dict)),
   qm.history.map (fun p => (p.1, p.2.map QueueItem.to_dict))⟩

/-- `QueueManager.load_state`: replace `queues` and `history` wholesale;
each restored queue is `deque(items, maxlen=max_queue_size)`, which keeps
only the LAST `max_queue_size` entries; history is restored unbounded. -/
def load_state (qm : QueueManager) (s : QMState) : QueueManager :=
  { qm with
    queues := s.queues.map
      (fun p => (p.1, takeRightN qm.max_queue_size (p.2.map QueueItem.from_dict))),
    history := s.history.map (fun p => (p.1, p.2.map QueueItem.from_dict)) }

/-- `ChatContext` dataclass from bot_engine.py (defaults of the source:
not playing, not paused, no current track, volume 100, repeat off,
position 0; `last_activity` defaults to the creation time). -/
structure ChatContext where
  chat_id : ChatId
  is_playing : Bool
  is_paused : Bool
  current_track : Option Track
  volume : Int
  repeat_mode : String
  queue_position : Nat
  last_activity : Nat
deriving DecidableEq, Repr

/-- `ChatContext(chat_id)` constructed with the dataclass defaults at time `t`. -/
def ChatContext.init (c : ChatId) (t : Nat) : ChatContext :=
  ⟨c, false, false, none, 100, "off", 0, t⟩

/-- Per-chat entry of `VoiceClient.active_chats`. -/
structure VoiceChatInfo where
  joined : Bool
  playing : Bool
  paused : Bool
  volume : Int
deriving DecidableEq, Repr

/-- A command issued to the underlying PyTgCalls call (instrumentation of
the shallow embedding: each voice-session command the code sends is
recorded, so "no VoiceSession command was issued" is expressible). -/
inductive VoiceCmd where
  | join (c : ChatId)
  | leave (c : ChatId)
  | play (c : ChatId) (url : String)
  | pause (c : ChatId)
  | resume (c : ChatId)
  | setVolume (c : ChatId) (v : Int)
deriving DecidableEq, Repr

/-- The `BotError` exceptions the orchestration paths can raise,
distinguished by their origin:
  - `voiceUnavailable`: `play_in_chat` with `self.voice_client is None`;
  - `streamResolutionFailed`: `_get_audio_stream_url` returned `None`;
  - `historyArity`: `play_in_chat` calls
    `self.queue_manager.add_to_history(chat_id, track, user_id)` but
    `QueueManager.add_to_history` takes `(chat_id, item)` — the call raises
    `TypeError`, caught by the enclosing `except` and re-raised as `BotError`;
  - `queueItemNotSubscriptable`: `skip_track` evaluates
    `next_track["track"]` on a `QueueItem`, which defines no `__getitem__`,
    raising `TypeError`;
  - `invalidVolume`: `set_volume` with volume outside `[0, 200]`. -/
inductive BotErr where
  | voiceUnavailable
  | streamResolutionFailed
  | historyArity
  | queueItemNotSubscriptable
  | invalidVolume
deriving DecidableEq, Repr

/-- Combined state of `MusicBotEngine` and its `VoiceClient`:
`voice` is whether `self.voice_client` is set, `active_chats` is the
voice client's per-chat dict, and `voiceLog` records every command sent to
the call layer (instrumentation, not source state). -/
structure EngineState where
  voice : Bool
  queue_manager : QueueManager
  chat_contexts : List (ChatId × ChatContext)
  active_chats : List (ChatId × VoiceChatInfo)
  voiceLog : List VoiceCmd
  total_plays : Nat
deriving DecidableEq, Repr

/-- `VoiceClient.is_joined`: membership in `active_chats`; the network
`get_call` probe either confirms or raises into the fallback, which reads
the stored `joined` flag — the deterministic fallback is modelled. -/
def vc_is_joined (st : EngineState) (c : ChatId) : Bool :=
  match dictLookup c st.active_chats with
  | none => false
  | some info => info.joined

/-- `VoiceClient.join_chat`: no-op if already joined, else issue the
`join_group_call` command and record the fresh per-chat entry. -/
def vc_join_chat (st : EngineState) (c : ChatId) : EngineState :=
  if vc_is_joined st c then st
  else
    { st with
      active_chats := dictInsert c ⟨true, false, false, 100⟩ st.active_chats,
      voiceLog := st.voiceLog ++ [VoiceCmd.join c] }

/-- `VoiceClient.play_audio`: join if needed, issue `change_stream`, and
mark the chat playing and unpaused. -/
def vc_play_audio (st : EngineState) (c : ChatId) (url : String) : EngineState :=
  let st1 := if vc_is_joined st c then st else vc_join_chat st c
  { st1 with
    active_chats := dictModify c (fun i => { i with playing := true, paused := false })
      st1.active_chats,
    voiceLog := st1.voiceLog ++ [VoiceCmd.play c url] }

/-- `VoiceClient.pause`: issue `pause_stream` and set the chat's paused flag. -/
def vc_pause (st : EngineState) (c : ChatId) : EngineState :=
  { st with
    active_chats := dictModify c (fun i => { i with paused := true }) st.active_chats,
    voiceLog := st.voiceLog ++ [VoiceCmd.pause c] }

/-- `VoiceClient.resume`: issue `resume_stream` and clear the paused flag. -/
def vc_resume (st : EngineState) (c : ChatId) : EngineState :=
  { st with
    active_chats := dictModify c (fun i => { i with paused := false }) st.active_chats,
    voiceLog := st.voiceLog ++ [VoiceCmd.resume c] }

/-- `VoiceClient.set_volume`: PyTgCalls 2.x has no direct volume command,
the value is only stored in `active_chats` (still logged as the command the
engine requested). -/
def vc_set_volume (st : EngineState) (c : ChatId) (v : Int) : EngineState :=
  { st with
    active_chats := dictModify c (fun i => { i with volume := v }) st.active_chats,
    voiceLog := st.voiceLog ++ [VoiceCmd.setVolume c v] }

/-- `VoiceClient.leave_chat`: issue `leave_group_call` and drop the chat's
entry. -/
def vc_leave_chat (st : EngineState) (c : ChatId) : EngineState :=
  { st with
    active_chats := dictErase c st.active_chats,
    voiceLog := st.voiceLog ++ [VoiceCmd.leave c] }

/-- First statement of `MusicBotEngine.play_in_chat`: create the chat's
context with dataclass defaults if absent. -/
def ensure_context (st : EngineState) (c : ChatId) (t : Nat) : EngineState :=
  match dictLookup c st.chat_contexts with
  | none =>
      { st with chat_contexts := dictInsert c (ChatContext.init c t) st.chat_contexts }
  | some _ => st

/-- Context update block of `play_in_chat` after `play_audio` succeeded:
`is_playing = True`, `is_paused = False`, `current_track = track`,
`last_activity = now`. -/
def mark_playing (st : EngineState) (c : ChatId) (tr : Track) (t : Nat) : EngineState :=
  match dictLookup c st.chat_contexts with
  | none => st
  | some ctx =>
      let ctx' := { ctx with is_playing := true, is_paused := false,
                             current_track := some tr, last_activity := t }
      { st with chat_contexts := dictInsert c ctx' st.chat_contexts }

/-- `MusicBotEngine.play_in_chat(chat_id, track, user_id)` at time `t`,
with the provider's stream resolution (`_get_audio_stream_url`, a network
call) supplied as the function `resolve`. Control flow of the source:
ensure the context exists; raise if no voice client; raise if no stream
URL; join the voice chat if needed; `play_audio`; update the context; then
call `self.queue_manager.add_to_history(chat_id, track, user_id)` — which
raises `TypeError` (wrong arity, see `BotErr.historyArity`), so the
remaining statements (stats increment, scrobble, `return True`) are
unreachable and every call that gets this far raises `BotError` with the
context already mutated. -/
def play_in_chat (resolve : Track → Option String) (st : EngineState) (c : ChatId)
    (tr : Track) (u : UserId) (t : Nat) : Except BotErr Bool × EngineState :=
  let st1 := ensure_context st c t
  if st1.voice = false then (.error .voiceUnavailable, st1)
  else
    match resolve tr with
    | none => (.error .streamResolutionFailed, st1)
    | some url =>
        let st2 := if vc_is_joined st1 c then st1 else vc_join_chat st1 c
        let st3 := vc_play_audio st2 c url
        let st4 := mark_playing st3 c tr t
        (.error .historyArity, st4)

/-- `MusicBotEngine.pause_playback(chat_id)`: false only when there is no
voice client; otherwise the pause command is issued and the context's
`is_paused` flag is set — the playing state is never checked. -/
def pause_playback (st : EngineState) (c : ChatId) : Bool × EngineState :=
  if st.voice = false then (false, st)
  else
    let st1 := vc_pause st c
    match dictLookup c st1.chat_contexts with
    | none => (true, st1)
    | some ctx =>
        (true, { st1 with chat_contexts :=
                   dictInsert c { ctx with is_paused := true } st1.chat_contexts })

/-- `MusicBotEngine.resume_playback(chat_id)`: symmetric to pause; the
paused state is never checked. -/
def resume_playback (st : EngineState) (c : ChatId) : Bool × EngineState :=
  if st.voice = false then (false, st)
  else
    let st1 := vc_resume st c
    match dictLookup c st1.chat_contexts with
    | none => (true, st1)
    | some ctx =>
        (true, { st1 with chat_contexts :=
                   dictInsert c { ctx with is_paused := false } st1.chat_contexts })

/-- `MusicBotEngine.stop_playback(chat_id)`: leave the voice chat and clear
the context's playback fields. -/
def stop_playback (st : EngineState) (c : ChatId) : Bool × EngineState :=
  if st.voice = false then (false, st)
  else
    let st1 := vc_leave_chat st c
    match dictLookup c st1.chat_contexts with
    | none => (true, st1)
    | some ctx =>
        let ctx' := { ctx with is_playing := false, is_paused := false,
                               current_track := none }
        (true, { st1 with chat_contexts := dictInsert c ctx' st1.chat_contexts })

/-- `MusicBotEngine.skip_track(chat_id)`: `None` when the chat has no
context; otherwise `queue_manager.get_next` pops the next entry. When an
entry exists the source evaluates `next_track["track"]` — a `QueueItem` is
not subscriptable, so a `TypeError` is raised BEFORE `play_in_chat` is
reached (the dequeued entry has already been moved to history). With an
empty queue, `stop_playback` runs and `None` is returned. -/
def skip_track (st : EngineState) (c : ChatId) : Except BotErr (Option Track) × EngineState :=
  match dictLookup c st.chat_contexts with
  | none => (.ok none, st)
  | some _ =>
      let r := get_next st.queue_manager c
      let st1 := { st with queue_manager := r.2 }
      match r.1 with
      | some _ => (.error .queueItemNotSubscriptable, st1)
      | none =>
          let r2 := stop_playback st1 c
          (.ok none, r2.2)

/-- `MusicBotEngine.set_volume(chat_id, volume)`: false when no voice
client; `BotError` when the volume is outside `[0, 200]` (checked before
any command is issued); otherwise the voice command is sent and the
context's `volume` is updated if the context exists. -/
def set_volume (st : EngineState) (c : ChatId) (v : Int) :
    Except BotErr Bool × EngineState :=
  if st.voice = false then (.ok false, st)
  else if v < 0 ∨ 200 < v then (.error .invalidVolume, st)
  else
    let st1 := vc_set_volume st c v
    match dictLookup c st1.chat_contexts with
    | none => (.ok true, st1)
    | some ctx =>
        (.ok true, { st1 with chat_contexts :=
                       dictInsert c { ctx with volume := v } st1.chat_contexts })

/-- `VoiceClient._on_stream_end(chat_id)`, the handler registered for the
PyTgCalls stream-ended event: it clears the voice-layer `playing` flag for
the chat and then does nothing further — the body ends with a comment
("This would trigger next track in queue") and an unused import; neither
the queue manager nor the engine's chat contexts are touched. -/
def on_stream_end (st : EngineState) (c : ChatId) : EngineState :=
  match dictLookup c st.active_chats with
  | none => st
  | some info =>
      { st with active_chats :=
          dictInsert c { info with playing := false } st.active_chats }

/-- `MusicBotEngine.__init__` state (voice client configured, fresh
`QueueManager()` with the source defaults 100/50). -/
def initEngine : EngineState :=
  ⟨true, QueueManager.init 100 50, [], [], [], 0⟩

/-- One orchestrator-level operation on the engine, as reachable from the
command handlers / the stream-end signal. `play`'s `url` field is the
response of the external provider for that call (`some` = resolved URL,
`none` = resolution failed); `shuffleSel` is `random.shuffle`'s choice. -/
inductive EngOp where
  | play (c : ChatId) (tr : Track) (u : UserId) (t : Nat) (url : Option String)
  | pause (c : ChatId)
  | resume (c : ChatId)
  | stop (c : ChatId)
  | skip (c : ChatId)
  | setVol (c : ChatId) (v : Int)
  | streamEnd (c : ChatId)
  | enqueue (c : ChatId) (tr : Track) (u : UserId) (t : Nat)
deriving DecidableEq, Repr

/-- Effect of one operation on the engine state (results discarded;
exception-aborted operations keep the mutations already performed, as the
Python objects do). -/
def EngineState.step (st : EngineState) : EngOp → EngineState
  | .play c tr u t url => (play_in_chat (fun _ => url) st c tr u t).2
  | .pause c => (pause_playback st c).2
  | .resume c => (resume_playback st c).2
  | .stop c => (stop_playback st c).2
  | .skip c => (skip_track st c).2
  | .setVol c v => (set_volume st c v).2
  | .streamEnd c => on_stream_end st c
  | .enqueue c tr u t => { st with queue_manager := (add_to_queue st.queue_manager c tr u t).2 }

/-- Run a sequence of orchestrator operations. -/
def runEng : List EngOp → EngineState → EngineState
  | [], st => st
  | op :: rest, st => runEng rest (st.step op)

/-- One `QueueManager` mutation, as invocable from the handlers: enqueue,
dequeue, positional removal, move, shuffle (with `random.shuffle`'s choice
as data), clear, and a state load from a snapshot. -/
inductive QOp where
  | enq (c : ChatId) (tr : Track) (u : UserId) (t : Nat)
  | deq (c : ChatId)
  | rem (c : ChatId) (pos : Int)
  | mov (c : ChatId) (fromPos toPos : Int)
  | shuf (c : ChatId) (sel : List Nat)
  | clr (c : ChatId)
  | load (s : QMState)
deriving DecidableEq, Repr

/-- Effect of one queue operation on the manager state (results and raised
errors discarded). -/
def QueueManager.qstep (qm : QueueManager) : QOp → QueueManager
  | .enq c tr u t => (add_to_queue qm c tr u t).2
  | .deq c => (get_next qm c).2
  | .rem c pos => (remove_track qm c pos).2
  | .mov c a b => (move_track qm c a b).2
  | .shuf c sel => (shuffle_queue qm c sel).2
  | .clr c => (clear_queue qm c).2
  | .load s => load_state qm s

/-- Run a sequence of queue operations. -/
def runQOps : List QOp → QueueManager → QueueManager
  | [], qm => qm
  | op :: rest, qm => runQOps rest (qm.qstep op)

/-- Every queue stored in `d` has at most `m` entries. -/
def LInv (m : Nat) (d : List (ChatId × List QueueItem)) : Prop :=
  ∀ c q, dictLookup c d = some q → q.length ≤ m

theorem LInv_insert {m : Nat} {d : List (ChatId × List QueueItem)} {c : ChatId}
    {q : List QueueItem} (hd : LInv m d) (hq : q.length ≤ m) :
    LInv m (dictInsert c q d) := by
  intro c' q' h
  rw [dictLookup_insert] at h
  by_cases hc : c' = c
  · rw [if_pos hc] at h
    injection h with h
    exact h ▸ hq
  · rw [if_neg hc] at h
    exact hd c' q' h

theorem dictLookup_map {α β : Type} (f : α → β) (k : ChatId) (l : List (ChatId × α)) :
    dictLookup k (l.map (fun p => (p.1, f p.2))) = (dictLookup k l).map f := by
  induction l with
  | nil => rfl
  | cons p rest ih =>
      obtain ⟨k₀, v₀⟩ := p
      by_cases h : k = k₀ <;> simp [dictLookup, h, ih]

theorem add_to_queue_LInv {qm : QueueManager} {c : ChatId} {tr : Track} {u : UserId}
    {t : Nat} (h : LInv qm.max_queue_size qm.queues) :
    LInv qm.max_queue_size (add_to_queue qm c tr u t).2.queues := by
  unfold add_to_queue
  cases hl : dictLookup c qm.queues with
  | none =>
      simp only [hl]
      rw [dictLookup_insert, if_pos rfl]
      simp only [Option.getD_some, List.length_nil]
      by_cases hfull : qm.max_queue_size ≤ 0
      · rw [if_pos hfull]
        exact LInv_insert h (by simp)
      · rw [if_neg hfull]
        simp only [List.nil_append]
        rw [dictInsert_insert]
        exact LInv_insert h (by simp only [List.length_singleton]; omega)
  | some q =>
      simp only [hl, Option.getD_some]
      by_cases hfull : qm.max_queue_size ≤ q.length
      · rw [if_pos hfull]
        exact h
      · rw [if_neg hfull]
        exact LInv_insert h
          (by simp only [List.length_append, List.length_singleton]; omega)

theorem get_next_LInv {qm : QueueManager} {c : ChatId}
    (h : LInv qm.max_queue_size qm.queues) :
    LInv qm.max_queue_size (get_next qm c).2.queues := by
  unfold get_next
  cases hl : dictLookup c qm.queues with
  | none =>
      simp only [hl]
      exact h
  | some q =>
      cases q with
      | nil =>
          simp only [hl]
          exact h
      | cons it rest =>
          simp only [hl]
          have hlen : rest.length ≤ qm.max_queue_size := by
            have := h c (it :: rest) hl
            simp only [List.length_cons] at this
            omega
          exact LInv_insert h hlen

theorem qstep_LInv {qm : QueueManager} (op : QOp)
    (h : LInv qm.max_queue_size qm.queues) :
    LInv qm.max_queue_size (qm.qstep op).queues := by
  cases op with
  | enq c tr u t => exact add_to_queue_LInv h
  | deq c => exact get_next_LInv h
  | rem c pos =>
      unfold QueueManager.qstep remove_track
      cases hl : dictLookup c qm.queues with
      | none =>
          simp only [hl]
          exact h
      | some q =>
          simp only [hl]
          by_cases hv : pos < 0 ∨ (q.length : Int) ≤ pos
          · rw [if_pos hv]
            exact h
          · rw [if_neg hv]
            exact LInv_insert h (takeRightN_length_le _ _)
  | mov c a b =>
      unfold QueueManager.qstep move_track
      cases hl : dictLookup c qm.queues with
      | none =>
          simp only [hl]
          exact h
      | some q =>
          simp only [hl]
          by_cases hv : a < 0 ∨ (q.length : Int) ≤ a ∨ b < 0 ∨ (q.length : Int) ≤ b
          · rw [if_pos hv]
            exact h
          · rw [if_neg hv]
            cases hg : q.get? a.toNat with
            | none =>
                simp only [hg]
                exact h
            | some it =>
                simp only [hg]
                exact LInv_insert h (takeRightN_length_le _ _)
  | shuf c sel =>
      unfold QueueManager.qstep shuffle_queue
      cases hl : dictLookup c qm.queues with
      | none =>
          simp only [hl]
          exact h
      | some q =>
          simp only [hl]
          by_cases hv : q.length < 2
          · rw [if_pos hv]
            exact h
          · rw [if_neg hv]
            exact LInv_insert h (takeRightN_length_le _ _)
  | clr c =>
      unfold QueueManager.qstep clear_queue
      cases hl : dictLookup c qm.queues with
      | none =>
          simp only [hl]
          exact h
      | some q =>
          simp only [hl]
          exact LInv_insert h (by simp)
  | load s =>
      unfold QueueManager.qstep load_state
      intro c q hq
      simp only at hq
      rw [dictLookup_map (fun its => takeRightN qm.max_queue_size
            (List.map QueueItem.from_dict its))] at hq
      cases hs : dictLookup c s.queues with
      | none => rw [hs] at hq; cases hq
      | some items =>
          rw [hs] at hq
          injection hq with hq
          exact hq ▸ takeRightN_length_le _ _

theorem qstep_max (qm : QueueManager) (op : QOp) :
    (qm.qstep op).max_queue_size = qm.max_queue_size := by
  cases op with
  | enq c tr u t =>
      simp only [QueueManager.qstep]
      unfold add_to_queue
      cases hl : dictLookup c qm.queues <;>
        simp [hl, dictLookup_insert] <;> split <;> rfl
  | deq c =>
      simp only [QueueManager.qstep]
      unfold get_next
      cases hl : dictLookup c qm.queues with
      | none => rfl
      | some q => cases q <;> rfl
  | rem c pos =>
      simp only [QueueManager.qstep]
      unfold remove_track
      cases hl : dictLookup c qm.queues with
      | none => rfl
      | some q =>
          dsimp only
          split <;> rfl
  | mov c a b =>
      simp only [QueueManager.qstep]
      unfold move_track
      cases hl : dictLookup c qm.queues with
      | none => rfl
      | some q =>
          dsimp only
          split
          · rfl
          · cases q.get? a.toNat <;> rfl
  | shuf c sel =>
      simp only [QueueManager.qstep]
      unfold shuffle_queue
      cases hl : dictLookup c qm.queues with
      | none => rfl
      | some q =>
          dsimp only
          split <;> rfl
  | clr c =>
      simp only [QueueManager.qstep]
      unfold clear_queue
      cases hl : dictLookup c qm.queues <;> rfl
  | load s => rfl

theorem runQOps_max (ops : List QOp) (qm : QueueManager) :
    (runQOps ops qm).max_queue_size = qm.max_queue_size := by
  induction ops generalizing qm with
  | nil => rfl
  | cons op rest ih => rw [runQOps, ih, qstep_max]

theorem runQOps_LInv (ops : List QOp) (qm : QueueManager)
    (h : LInv qm.max_queue_size qm.queues) :
    LInv (runQOps ops qm).max_queue_size (runQOps ops qm).queues := by
  induction ops generalizing qm with
  | nil => exact h
  | cons op rest ih =>
      have hmax := qstep_max qm op
      exact ih (qm.qstep op) (hmax ▸ qstep_LInv op h)

/-- One `add_to_queue` call: target chat, track, requesting user, time. -/
structure EnqOp where
  chat : ChatId
  track : Track
  user : UserId
  t : Nat
deriving DecidableEq, Repr

/-- The `QueueItem` an enqueue call constructs. -/
def EnqOp.item (o : EnqOp) : QueueItem := ⟨o.track, o.user, o.t, false⟩

/-- Apply a sequence of enqueue calls (raised `QueueError`s discarded, as
for separate bot commands). -/
def runEnqueues : List EnqOp → QueueManager → QueueManager
  | [], qm => qm
  | o :: rest, qm => runEnqueues rest (add_to_queue qm o.chat o.track o.user o.t).2

/-- The enqueue calls of a sequence that target chat `c`, in order. -/
def forChat (c : ChatId) (ops : List EnqOp) : List EnqOp :=
  ops.filter (fun o => o.chat == c)

theorem forChat_cons (c : ChatId) (o : EnqOp) (rest : List EnqOp) :
    forChat c (o :: rest)
      = if o.chat = c then o :: forChat c rest else forChat c rest := by
  unfold forChat
  by_cases h : o.chat = c <;> simp [List.filter_cons, h]

/-- Call `get_next` `n` times for chat `c`, collecting the returned items. -/
def drainN : Nat → QueueManager → ChatId → List QueueItem × QueueManager
  | 0, qm, _ => ([], qm)
  | n + 1, qm, c =>
      let r := get_next qm c
      match r.1 with
      | none => ([], r.2)
      | some it =>
          let rest := drainN n r.2 c
          (it :: rest.1, rest.2)

theorem add_to_queue_lookup_self (qm : QueueManager) (c : ChatId) (tr : Track)
    (u : UserId) (t : Nat)
    (h : ((dictLookup c qm.queues).getD []).length < qm.max_queue_size) :
    dictLookup c (add_to_queue qm c tr u t).2.queues
      = some (((dictLookup c qm.queues).getD []) ++ [⟨tr, u, t, false⟩]) := by
  unfold add_to_queue
  cases hl : dictLookup c qm.queues with
  | none =>
      rw [hl] at h
      simp only [Option.getD_none, List.length_nil] at h
      have hmax0 : ¬ qm.max_queue_size = 0 := by omega
      simp only [hl]
      simp [dictLookup_insert, hmax0, dictInsert_insert]
  | some q =>
      rw [hl] at h
      simp only [Option.getD_some] at h
      have hfull : ¬ qm.max_queue_size ≤ q.length := by omega
      simp only [hl]
      simp [hfull, dictLookup_insert]

theorem add_to_queue_lookup_other (qm : QueueManager) (c : ChatId) (tr : Track)
    (u : UserId) (t : Nat) (c' : ChatId) (hne : c' ≠ c) :
    dictLookup c' (add_to_queue qm c tr u t).2.queues = dictLookup c' qm.queues := by
  unfold add_to_queue
  cases hl : dictLookup c qm.queues <;>
    · simp only [hl]
      split <;> simp [dictLookup_insert, hne]

theorem add_to_queue_history_eq (qm : QueueManager) (c : ChatId) (tr : Track)
    (u : UserId) (t : Nat) :
    (add_to_queue qm c tr u t).2.history = qm.history := by
  unfold add_to_queue
  cases hl : dictLookup c qm.queues <;>
    · simp only [hl]
      split <;> rfl

theorem add_to_queue_max (qm : QueueManager) (c : ChatId) (tr : Track)
    (u : UserId) (t : Nat) :
    (add_to_queue qm c tr u t).2.max_queue_size = qm.max_queue_size :=
  qstep_max qm (QOp.enq c tr u t)

theorem runEnqueues_history (ops : List EnqOp) (qm : QueueManager) :
    (runEnqueues ops qm).history = qm.history := by
  induction ops generalizing qm with
  | nil => rfl
  | cons o rest ih =>
      rw [runEnqueues, ih, add_to_queue_history_eq]

theorem runEnqueues_lookup (ops : List EnqOp) (qm : QueueManager) (c : ChatId)
    (hcap : ∀ c', ((dictLookup c' qm.queues).getD []).length
                  + (forChat c' ops).length ≤ qm.max_queue_size) :
    (dictLookup c (runEnqueues ops qm).queues).getD []
      = (dictLookup c qm.queues).getD [] ++ (forChat c ops).map EnqOp.item := by
  induction ops generalizing qm with
  | nil => simp [runEnqueues, forChat]
  | cons o rest ih =>
      have hself : (forChat o.chat (o :: rest)).length
          = (forChat o.chat rest).length + 1 := by
        rw [forChat_cons, if_pos rfl]
        simp
      have hlt : ((dictLookup o.chat qm.queues).getD []).length < qm.max_queue_size := by
        have := hcap o.chat
        rw [hself] at this
        omega
      have hca : ∀ c', ((dictLookup c'
            (add_to_queue qm o.chat o.track o.user o.t).2.queues).getD []).length
          + (forChat c' rest).length
          ≤ (add_to_queue qm o.chat o.track o.user o.t).2.max_queue_size := by
        intro c'
        rw [add_to_queue_max]
        by_cases hc : c' = o.chat
        · rw [hc, add_to_queue_lookup_self qm o.chat o.track o.user o.t hlt]
          have := hcap o.chat
          rw [hself] at this
          simp only [Option.getD_some, List.length_append, List.length_singleton]
          omega
        · rw [add_to_queue_lookup_other qm o.chat o.track o.user o.t c' hc]
          have := hcap c'
          rw [forChat_cons, if_neg (fun h => hc h.symm)] at this
          exact this
      rw [runEnqueues, ih _ hca]
      by_cases hc : c = o.chat
      · rw [hc, add_to_queue_lookup_self qm o.chat o.track o.user o.t hlt]
        rw [forChat_cons, if_pos rfl]
        simp [EnqOp.item, List.append_assoc]
      · rw [add_to_queue_lookup_other qm o.chat o.track o.user o.t c hc]
        rw [forChat_cons, if_neg (fun h => hc h.symm)]

theorem drainN_spec (l : List QueueItem) (qm : QueueManager) (c : ChatId)
    (h : (dictLookup c qm.queues).getD [] = l) :
    (drainN l.length qm c).1 = l.map (fun it => { it with played := true })
    ∧ (dictLookup c (drainN l.length qm c).2.queues).getD [] = []
    ∧ ∀ c', c' ≠ c →
        dictLookup c' (drainN l.length qm c).2.queues = dictLookup c' qm.queues
        ∧ dictLookup c' (drainN l.length qm c).2.history = dictLookup c' qm.history := by
  induction l generalizing qm with
  | nil =>
      exact ⟨rfl, h, fun c' _ => ⟨rfl, rfl⟩⟩
  | cons it rest ih =>
      have hlook : dictLookup c qm.queues = some (it :: rest) := by
        cases hl : dictLookup c qm.queues with
        | none => rw [hl] at h; simp at h
        | some q => rw [hl] at h; simp only [Option.getD_some] at h; rw [h]
      have hg : get_next qm c
          = (some { it with played := true },
             add_to_history { qm with queues := dictInsert c rest qm.queues } c
               { it with played := true }) := by
        unfold get_next
        rw [hlook]
      have hq2 : (dictLookup c (get_next qm c).2.queues).getD [] = rest := by
        rw [hg]
        show (dictLookup c (dictInsert c rest qm.queues)).getD [] = rest
        rw [dictLookup_insert, if_pos rfl]
        rfl
      have hdrain : drainN (it :: rest).length qm c
          = ((get_next qm c).1.getD { it with played := true }
              :: (drainN rest.length (get_next qm c).2 c).1,
             (drainN rest.length (get_next qm c).2 c).2) := by
        simp only [List.length_cons, drainN, hg]
        rfl
      obtain ⟨ih1, ih2, ih3⟩ := ih (get_next qm c).2 hq2
      refine ⟨?_, ?_, ?_⟩
      · rw [hdrain, ih1, hg]
        simp
      · rw [hdrain]
        exact ih2
      · intro c' hne
        have hqᵢ : dictLookup c' (get_next qm c).2.queues = dictLookup c' qm.queues := by
          rw [hg]
          show dictLookup c' (dictInsert c rest qm.queues) = dictLookup c' qm.queues
          rw [dictLookup_insert, if_neg hne]
        have hhᵢ : dictLookup c' (get_next qm c).2.history
            = dictLookup c' qm.history := by
          rw [hg]
          unfold add_to_history
          show dictLookup c' (dictInsert c _ qm.history) = dictLookup c' qm.history
          rw [dictLookup_insert, if_neg hne]
        obtain ⟨ihq, ihh⟩ := ih3 c' hne
        rw [hdrain]
        exact ⟨ihq.trans hqᵢ, ihh.trans hhᵢ⟩

/- ------------------------------------------------------------------ -/
/- Concrete states used by individual claims.                          -/
/- ------------------------------------------------------------------ -/

/-- Chat 42: voice session active, context Playing track 1, one entry
(track 2, user 9) waiting in the queue. -/
def stC1 : EngineState :=
  { voice := true,
    queue_manager := (add_to_queue (QueueManager.init 100 50) 42 ⟨2⟩ 9 1).2,
    chat_contexts := [(42, ⟨42, true, false, some ⟨1⟩, 100, "off", 0, 0⟩)],
    active_chats := [(42, ⟨true, true, false, 100⟩)],
    voiceLog := [],
    total_plays := 1 }

/-- Chat 2: context Playing track 1, one queued entry (track 3, user 8). -/
def stC2 : EngineState :=
  { voice := true,
    queue_manager := (add_to_queue (QueueManager.init 100 50) 2 ⟨3⟩ 8 5).2,
    chat_contexts := [(2, ⟨2, true, false, some ⟨1⟩, 100, "off", 0, 0⟩)],
    active_chats := [(2, ⟨true, true, false, 100⟩)],
    voiceLog := [],
    total_plays := 0 }

/-- Chat 1 with an Idle context (fresh defaults) and a voice client. -/
def stC3idle : EngineState :=
  { voice := true,
    queue_manager := QueueManager.init 100 50,
    chat_contexts := [(1, ChatContext.init 1 0)],
    active_chats := [],
    voiceLog := [],
    total_plays := 0 }

/-- Chat 1 Playing (not Paused) with a voice client. -/
def stC3playing : EngineState :=
  { voice := true,
    queue_manager := QueueManager.init 100 50,
    chat_contexts := [(1, ⟨1, true, false, some ⟨1⟩, 100, "off", 0, 0⟩)],
    active_chats := [(1, ⟨true, true, false, 100⟩)],
    voiceLog := [],
    total_plays := 0 }

/-- Chat 1 Playing, used to exercise `play_in_chat` failure. -/
def stC5 : EngineState :=
  { voice := true,
    queue_manager := QueueManager.init 100 50,
    chat_contexts := [(1, ⟨1, true, false, some ⟨4⟩, 80, "off", 0, 7⟩)],
    active_chats := [(1, ⟨true, true, false, 80⟩)],
    voiceLog := [],
    total_plays := 3 }

/-- A provider that cannot produce a playable stream URL. -/
def resolveNone : Track → Option String := fun _ => none

/-- Chat 1 with a context at volume 80, used for the volume claim. -/
def stC6 : EngineState :=
  { voice := true,
    queue_manager := QueueManager.init 100 50,
    chat_contexts := [(1, ⟨1, true, false, some ⟨4⟩, 80, "off", 0, 7⟩)],
    active_chats := [(1, ⟨true, true, false, 80⟩)],
    voiceLog := [],
    total_plays := 0 }

/-- The n-th queue item of the 5-item pagination example. -/
def c7item (n : Nat) : QueueItem := ⟨⟨n⟩, (n : Int), n, false⟩

/-- Tail of the 5-item queue. -/
def c7rest : List QueueItem := [c7item 2, c7item 3, c7item 4, c7item 5]

/-- A queue manager whose chat 7 holds exactly 5 queued items. -/
def qm5 : QueueManager := ⟨100, 50, [(7, c7item 1 :: c7rest)], []⟩

/- ------------------------------------------------------------------ -/
/- Claim theorems.                                                     -/
/- ------------------------------------------------------------------ -/

/-- C1: the spec says the stream-ended handler is equivalent to
`skip(chat_id)`. The code's handler (`VoiceClient._on_stream_end`) only
clears the voice-layer `playing` flag: at a state with a Playing context
and a non-empty queue it leaves the queue manager and every chat context
unchanged (the queued entry stays queued), whereas `skip_track` at the
same state dequeues it — so the handler is not equivalent to skip. -/
theorem c1_on_stream_end_does_not_advance :
    (on_stream_end stC1 42).queue_manager = stC1.queue_manager
    ∧ (on_stream_end stC1 42).chat_contexts = stC1.chat_contexts
    ∧ get_queue_size (on_stream_end stC1 42).queue_manager 42 = 1
    ∧ get_queue_size (skip_track stC1 42).2.queue_manager 42 = 0 := by
  decide

/-- C2: on a chat with an existing context and one queued entry,
`skip_track` raises (`next_track["track"]` on a non-subscriptable
`QueueItem`) instead of starting playback and returning the track; the
dequeued entry has nevertheless already been marked played and moved to
history, and the chat context is left untouched (no transition to
Playing). -/
theorem c2_skip_nonempty_raises_typeerror :
    (skip_track stC2 2).1 = Except.error BotErr.queueItemNotSubscriptable
    ∧ get_queue_size (skip_track stC2 2).2.queue_manager 2 = 0
    ∧ ((dictLookup 2 (skip_track stC2 2).2.queue_manager.history).getD []).map
        (fun it => (it.track, it.user_id, it.played)) = [(⟨3⟩, 8, true)]
    ∧ dictLookup 2 (skip_track stC2 2).2.chat_contexts = dictLookup 2 stC2.chat_contexts :=
  ⟨rfl, rfl, rfl, rfl⟩

/-- C3 counterexample: at `stC3idle`, chat 1 is not Playing, yet
`pause_playback` returns `true` and issues a VoiceSession pause command
(the voice log grows); at `stC3playing`, chat 1 is Playing and not Paused,
yet `resume_playback` returns `true` — refuting the claim that both return
false without commands in those states. -/
theorem c3_counterexample :
    (dictLookup 1 stC3idle.chat_contexts).map ChatContext.is_playing = some false
    ∧ (pause_playback stC3idle 1).1 = true
    ∧ (pause_playback stC3idle 1).2.voiceLog ≠ stC3idle.voiceLog
    ∧ (dictLookup 1 stC3playing.chat_contexts).map
        (fun ctx => (ctx.is_playing, ctx.is_paused)) = some (true, false)
    ∧ (resume_playback stC3playing 1).1 = true := by
  decide

/-- C3 amended: `pause_playback`/`resume_playback` return false (with no
VoiceSession command) exactly when no voice client is configured; when one
is configured they return true, issue the pause/resume command, and set or
clear `is_paused` on the chat's context (if any) regardless of the chat's
playback state. -/
theorem c3_pause_resume_ignore_playback_state (st : EngineState) (c : ChatId) :
    (st.voice = false →
        pause_playback st c = (false, st) ∧ resume_playback st c = (false, st))
    ∧ (st.voice = true →
        (pause_playback st c).1 = true
        ∧ (pause_playback st c).2.voiceLog = st.voiceLog ++ [VoiceCmd.pause c]
        ∧ (resume_playback st c).1 = true
        ∧ (resume_playback st c).2.voiceLog = st.voiceLog ++ [VoiceCmd.resume c]
        ∧ ∀ ctx, dictLookup c st.chat_contexts = some ctx →
            dictLookup c (pause_playback st c).2.chat_contexts
              = some { ctx with is_paused := true }
            ∧ dictLookup c (resume_playback st c).2.chat_contexts
              = some { ctx with is_paused := false }) := by
  constructor
  · intro hv
    simp [pause_playback, resume_playback, hv]
  · intro hv
    cases h : dictLookup c st.chat_contexts with
    | none =>
        refine ⟨?_, ?_, ?_, ?_, ?_⟩
        · simp [pause_playback, hv, vc_pause, h]
        · simp [pause_playback, hv, vc_pause, h]
        · simp [resume_playback, hv, vc_resume, h]
        · simp [resume_playback, hv, vc_resume, h]
        · intro ctx hctx
          exact absurd hctx (by simp)
    | some ctx0 =>
        refine ⟨?_, ?_, ?_, ?_, ?_⟩
        · simp [pause_playback, hv, vc_pause, h]
        · simp [pause_playback, hv, vc_pause, h]
        · simp [resume_playback, hv, vc_resume, h]
        · simp [resume_playback, hv, vc_resume, h]
        · intro ctx hctx
          obtain rfl : ctx0 = ctx := by injection hctx
          constructor
          · simp [pause_playback, hv, vc_pause, h, dictLookup_insert]
          · simp [resume_playback, hv, vc_resume, h, dictLookup_insert]

/-- C3 witness: at the concrete idle-chat state, pause returns true, logs
a pause command, and flips `is_paused` on the idle context. -/
theorem c3_witness :
    (pause_playback stC3idle 1).1 = true
    ∧ (pause_playback stC3idle 1).2.voiceLog = stC3idle.voiceLog ++ [VoiceCmd.pause 1]
    ∧ dictLookup 1 (pause_playback stC3idle 1).2.chat_contexts
        = some { ChatContext.init 1 0 with is_paused := true } := by
  have h := (c3_pause_resume_ignore_playback_state stC3idle 1).2 (by decide)
  exact ⟨h.1, h.2.1, (h.2.2.2.2 (ChatContext.init 1 0) (by decide)).1⟩

/-- C5: when the provider cannot produce a playable stream URL
(`_get_audio_stream_url` returns `None`), `play_in_chat` raises the
stream-resolution `BotError` and, for a chat that already has a playback
context, returns the engine state entirely unchanged: every context field
(`is_playing`, `is_paused`, `current_track`, `last_activity`), the queue
manager, the voice-session state and the command log are exactly as
before. -/
theorem c5_play_stream_failure_leaves_state_untouched
    (resolve : Track → Option String) (st : EngineState) (c : ChatId)
    (tr : Track) (u : UserId) (t : Nat) (ctx : ChatContext)
    (hvoice : st.voice = true)
    (hctx : dictLookup c st.chat_contexts = some ctx)
    (hres : resolve tr = none) :
    play_in_chat resolve st c tr u t
      = (Except.error BotErr.streamResolutionFailed, st) := by
  have hensure : ensure_context st c t = st := by
    unfold ensure_context
    rw [hctx]
  simp [play_in_chat, hensure, hvoice, hres]

/-- C5 witness at a concrete Playing context and the failing provider. -/
theorem c5_witness :
    play_in_chat resolveNone stC5 1 ⟨9⟩ 2 3
      = (Except.error BotErr.streamResolutionFailed, stC5) :=
  c5_play_stream_failure_leaves_state_untouched resolveNone stC5 1 ⟨9⟩ 2 3
    ⟨1, true, false, some ⟨4⟩, 80, "off", 0, 7⟩ rfl (by decide) rfl

/-- C6: with a voice client configured, `set_volume` with a volume outside
`[0, 200]` raises the invalid-volume `BotError` and returns the engine
state entirely unchanged: the range check precedes the VoiceSession
command (the command log does not grow) and the context's volume keeps its
prior value. -/
theorem c6_invalid_volume_rejected_before_side_effects
    (st : EngineState) (c : ChatId) (v : Int)
    (hvoice : st.voice = true) (hv : v < 0 ∨ 200 < v) :
    set_volume st c v = (Except.error BotErr.invalidVolume, st) := by
  unfold set_volume
  rw [hvoice]
  simp [hv]

/-- C6 witness: `set_volume(1, 250)` at the concrete state. -/
theorem c6_witness :
    set_volume stC6 1 250 = (Except.error BotErr.invalidVolume, stC6) :=
  c6_invalid_volume_rejected_before_side_effects stC6 1 250 rfl (Or.inr (by decide))

/-- C7 counterexample: on a chat with no queue, `get_queue` with `page=0`
returns the page number unchanged (0), not forced to 1 as the claim
states. -/
theorem c7_counterexample :
    get_queue (QueueManager.init 100 50) 3 0 10
      = some { items := [], total := 0, page := 0, per_page := 10, pages := 0 }
    ∧ (get_queue (QueueManager.init 100 50) 3 0 10).map QueuePage.page ≠ some 1 := by
  decide

/-- C7 amended: for `per_page ≥ 1`, a missing/empty queue yields
`pages = 0`, `items = []` and the page argument passed through UNCHANGED
(not forced to 1); a non-empty queue yields EXACTLY the result whose page
is the REQUESTED page clamped (`gq_clamp page pages`, which lies in
`[1, pages]`), whose items are the Python slice
`items[(clamped-1)*per_page : (clamped-1)*per_page + per_page]` of the
queue at that clamped page, with the correct total and page count; and on
the concrete 5-item queue, `page=0, per_page=10` yields page 1, total 5,
1 page. -/
theorem c7_paginate_clamps_only_nonempty (qm : QueueManager) (c : ChatId)
    (page per_page : Int) (hpp : 1 ≤ per_page) :
    (dictLookup c qm.queues = none ∨ dictLookup c qm.queues = some [] →
      get_queue qm c page per_page
        = some { items := [], total := 0, page := page, per_page := per_page, pages := 0 })
    ∧ (∀ it its, dictLookup c qm.queues = some (it :: its) →
        get_queue qm c page per_page
          = some { items := (pySlice (it :: its)
                      ((gq_clamp page (gq_pages (it :: its).length per_page) - 1) * per_page)
                      ((gq_clamp page (gq_pages (it :: its).length per_page) - 1) * per_page
                        + per_page)).map QueueItem.to_dict,
                   total := (it :: its).length,
                   page := gq_clamp page (gq_pages (it :: its).length per_page),
                   per_page := per_page,
                   pages := gq_pages (it :: its).length per_page }
        ∧ 1 ≤ gq_clamp page (gq_pages (it :: its).length per_page)
        ∧ gq_clamp page (gq_pages (it :: its).length per_page)
            ≤ gq_pages (it :: its).length per_page)
    ∧ get_queue qm5 7 0 10
        = some { items := (c7item 1 :: c7rest).map QueueItem.to_dict,
                 total := 5, page := 1, per_page := 10, pages := 1 } := by
  refine ⟨?_, ?_, by decide⟩
  · rintro (h | h) <;> simp [get_queue, h]
  · intro it its h
    have hne : ¬ per_page = 0 := by omega
    have hpages : 1 ≤ gq_pages (it :: its).length per_page := by
      unfold gq_pages
      rw [Int.fdiv_eq_ediv _ (by omega)]
      have hlen : (1 : Int) ≤ ((it :: its).length : Int) := by
        simp only [List.length_cons]
        omega
      have hrw : ((it :: its).length : Int) + per_page - 1
          = (((it :: its).length : Int) - 1) + 1 * per_page := by ring
      rw [hrw, Int.add_mul_ediv_right _ _ hne]
      have h0 : (0 : Int) ≤ (((it :: its).length : Int) - 1) / per_page :=
        Int.ediv_nonneg (by omega) (by omega)
      omega
    have hclamp : 1 ≤ gq_clamp page (gq_pages (it :: its).length per_page)
        ∧ gq_clamp page (gq_pages (it :: its).length per_page)
            ≤ gq_pages (it :: its).length per_page := by
      unfold gq_clamp
      split_ifs <;> omega
    refine ⟨?_, hclamp.1, hclamp.2⟩
    simp only [get_queue]
    rw [h]
    simp [hne]

/-- C7 witness: the clamping branch applied to the 5-item queue at
`page = 0`, `per_page = 10`: the result is exactly the slice at the
requested page clamped. -/
theorem c7_witness :
    get_queue qm5 7 0 10
      = some { items := (pySlice (c7item 1 :: c7rest)
                  ((gq_clamp 0 (gq_pages (c7item 1 :: c7rest).length 10) - 1) * 10)
                  ((gq_clamp 0 (gq_pages (c7item 1 :: c7rest).length 10) - 1) * 10
                    + 10)).map QueueItem.to_dict,
               total := (c7item 1 :: c7rest).length,
               page := gq_clamp 0 (gq_pages (c7item 1 :: c7rest).length 10),
               per_page := 10,
               pages := gq_pages (c7item 1 :: c7rest).length 10 }
    ∧ 1 ≤ gq_clamp 0 (gq_pages (c7item 1 :: c7rest).length 10)
    ∧ gq_clamp 0 (gq_pages (c7item 1 :: c7rest).length 10)
        ≤ gq_pages (c7item 1 :: c7rest).length 10 :=
  (c7_paginate_clamps_only_nonempty qm5 7 0 10 (by decide)).2.1 (c7item 1) c7rest rfl

/-- C8: for ANY interleaving of enqueues across chats (each chat staying
within the capacity 100 of `QueueManager()`): dequeuing chat `c`'s queue
returns exactly the `(track, user)` pairs enqueued for `c`, in FIFO
(insertion) order; and afterwards every other chat's queue still holds
exactly its own enqueued pairs in order, with an empty history — no entry
leaks across chats in either direction. -/
theorem c8_fifo_and_isolation (ops : List EnqOp) (c : ChatId)
    (hcap : ∀ c', (forChat c' ops).length ≤ 100) :
    ((drainN (forChat c ops).length (runEnqueues ops (QueueManager.init 100 50)) c).1).map
        (fun it => (it.track, it.user_id))
      = (forChat c ops).map (fun o => (o.track, o.user))
    ∧ ∀ c', c' ≠ c →
        ((dictLookup c' (drainN (forChat c ops).length
              (runEnqueues ops (QueueManager.init 100 50)) c).2.queues).getD []).map
            (fun it => (it.track, it.user_id))
          = (forChat c' ops).map (fun o => (o.track, o.user))
        ∧ (dictLookup c' (drainN (forChat c ops).length
              (runEnqueues ops (QueueManager.init 100 50)) c).2.history).getD [] = [] := by
  have hcap' : ∀ c', ((dictLookup c' (QueueManager.init 100 50).queues).getD []).length
      + (forChat c' ops).length ≤ (QueueManager.init 100 50).max_queue_size := by
    intro c'
    have := hcap c'
    simpa [QueueManager.init, dictLookup] using this
  have hrunq : ∀ c'',
      (dictLookup c'' (runEnqueues ops (QueueManager.init 100 50)).queues).getD []
        = (forChat c'' ops).map EnqOp.item := by
    intro c''
    have := runEnqueues_lookup ops (QueueManager.init 100 50) c'' hcap'
    simpa [QueueManager.init, dictLookup] using this
  have hlen : ((forChat c ops).map EnqOp.item).length = (forChat c ops).length :=
    List.length_map _ _
  have hspec := drainN_spec ((forChat c ops).map EnqOp.item)
    (runEnqueues ops (QueueManager.init 100 50)) c (hrunq c)
  rw [hlen] at hspec
  obtain ⟨h1, _h2, h3⟩ := hspec
  constructor
  · rw [h1, List.map_map, List.map_map]
    exact List.map_congr_left (fun o _ => rfl)
  · intro c' hne
    obtain ⟨hq, hh⟩ := h3 c' hne
    constructor
    · rw [hq, hrunq c', List.map_map]
      exact List.map_congr_left (fun o _ => rfl)
    · rw [hh, runEnqueues_history]
      rfl

/-- Interleaved enqueues: chat 1 gets tracks 10 and 11, chat 2 gets track
20 in between. -/
def opsC8 : List EnqOp := [⟨1, ⟨10⟩, 100, 0⟩, ⟨2, ⟨20⟩, 200, 1⟩, ⟨1, ⟨11⟩, 101, 2⟩]

/-- C8 witness: draining chat 1 after the interleaved enqueues returns
chat 1's pairs in order, and chat 2's queue and history are untouched by
it. -/
theorem c8_witness :
    ((drainN (forChat 1 opsC8).length (runEnqueues opsC8 (QueueManager.init 100 50)) 1).1).map
        (fun it => (it.track, it.user_id))
      = (forChat 1 opsC8).map (fun o => (o.track, o.user))
    ∧ ((dictLookup 2 (drainN (forChat 1 opsC8).length
          (runEnqueues opsC8 (QueueManager.init 100 50)) 1).2.queues).getD []).map
        (fun it => (it.track, it.user_id))
      = (forChat 2 opsC8).map (fun o => (o.track, o.user))
    ∧ (dictLookup 2 (drainN (forChat 1 opsC8).length
          (runEnqueues opsC8 (QueueManager.init 100 50)) 1).2.history).getD [] = [] := by
  have hcap : ∀ c', (forChat c' opsC8).length ≤ 100 := by
    intro c'
    have hle := List.length_filter_le (fun o => o.chat == c') opsC8
    have h3 : opsC8.length = 3 := rfl
    unfold forChat
    omega
  have h := c8_fifo_and_isolation opsC8 1 hcap
  exact ⟨h.1, (h.2 2 (by decide)).1, (h.2 2 (by decide)).2⟩

/-- C9: restoring the snapshot of a manager `qm` (every queue within the
capacity bound, as `add_to_queue` guarantees) into any manager `qm₂` of
the same capacity reproduces `qm`'s queues and history exactly — every
`QueueItem` field (track, user, enqueue timestamp, played flag) and the
order of every per-chat list round-trip, and `qm₂`'s previous queues and
history are discarded wholesale (no merge). -/
theorem c9_snapshot_restore_roundtrip (qm qm₂ : QueueManager)
    (hlen : ∀ p ∈ qm.queues, (p.2 : List QueueItem).length ≤ qm.max_queue_size)
    (hmax : qm₂.max_queue_size = qm.max_queue_size) :
    load_state qm₂ (save_state qm)
      = { qm₂ with queues := qm.queues, history := qm.history } := by
  have hid : QueueItem.from_dict ∘ QueueItem.to_dict = id := funext from_dict_to_dict
  have hitem : ∀ (l : List QueueItem),
      (l.map QueueItem.to_dict).map QueueItem.from_dict = l := by
    intro l
    rw [List.map_map, hid, List.map_id]
  have hq : (save_state qm).queues.map
      (fun p => (p.1, takeRightN qm₂.max_queue_size (p.2.map QueueItem.from_dict)))
      = qm.queues := by
    unfold save_state
    rw [List.map_map]
    have : ∀ p ∈ qm.queues,
        ((fun p => (p.1, takeRightN qm₂.max_queue_size (p.2.map QueueItem.from_dict))) ∘
          (fun p => (p.1, p.2.map QueueItem.to_dict))) p = id p := by
      intro p hp
      simp only [Function.comp_apply, id_eq]
      rw [hitem, hmax, takeRightN_of_le (hlen p hp)]
    rw [List.map_congr_left this, List.map_id]
  have hh : (save_state qm).history.map
      (fun p => (p.1, p.2.map QueueItem.from_dict)) = qm.history := by
    unfold save_state
    rw [List.map_map]
    have : ∀ p ∈ qm.history,
        ((fun p => (p.1, p.2.map QueueItem.from_dict)) ∘
          (fun p => (p.1, p.2.map QueueItem.to_dict))) p = id p := by
      intro p hp
      simp only [Function.comp_apply, id_eq]
      rw [hitem]
    rw [List.map_congr_left this, List.map_id]
  unfold load_state
  rw [hq, hh]

/-- One enqueued manager state for the C9 witness. -/
def qmC9 : QueueManager :=
  (get_next (add_to_queue ((add_to_queue (QueueManager.init 100 50) 4 ⟨1⟩ 2 3).2) 4 ⟨2⟩ 5 6).2 4).2

/-- C9 witness: the round trip at a concrete manager holding one queued
and one history entry, restored into a fresh manager of the same
capacity. -/
theorem c9_witness :
    load_state (QueueManager.init 100 50) (save_state qmC9)
      = { QueueManager.init 100 50 with queues := qmC9.queues, history := qmC9.history } :=
  c9_snapshot_restore_roundtrip qmC9 (QueueManager.init 100 50) (by decide) rfl

/-- C10: (a) every queue of a manager reached from `QueueManager()` (with
the source defaults, capacity 100) by any sequence of enqueue / dequeue /
remove / move / shuffle / clear / load operations has at most 100 entries;
(b) restoring a snapshot does not fail on an oversized per-chat list but
silently keeps only the LAST `max_queue_size` of its entries (the deque's
`maxlen` discards the oldest, at the front), so the restored length equals
exactly `max_queue_size` whenever the snapshot held at least that many. -/
theorem c10_queue_capacity_invariant (ops : List QOp) (c : ChatId) (q : List QueueItem)
    (h : dictLookup c (runQOps ops (QueueManager.init 100 50)).queues = some q) :
    q.length ≤ 100
    ∧ ∀ (qm : QueueManager) (s : QMState) (items : List SerItem),
        dictLookup c s.queues = some items →
        dictLookup c (load_state qm s).queues
          = some (takeRightN qm.max_queue_size (items.map QueueItem.from_dict))
        ∧ (qm.max_queue_size ≤ items.length →
            (takeRightN qm.max_queue_size (items.map QueueItem.from_dict)).length
              = qm.max_queue_size) := by
  constructor
  · have hinit : LInv (QueueManager.init 100 50).max_queue_size
        (QueueManager.init 100 50).queues := by
      intro c' q' h'
      cases h'
    have hrun := runQOps_LInv ops (QueueManager.init 100 50) hinit
    have hmax : (runQOps ops (QueueManager.init 100 50)).max_queue_size = 100 :=
      runQOps_max ops (QueueManager.init 100 50)
    exact hmax ▸ hrun c q h
  · intro qm s items hs
    constructor
    · unfold load_state
      simp only
      rw [dictLookup_map (fun its => takeRightN qm.max_queue_size
            (List.map QueueItem.from_dict its)), hs]
      rfl
    · intro hle
      simp only [takeRightN, List.length_drop, List.length_map]
      omega

/-- The half of the claimed context invariant that the code maintains:
`is_playing` is set exactly when a current track is set. -/
def CtxInv (l : List (ChatId × ChatContext)) : Prop :=
  ∀ c ctx, dictLookup c l = some ctx → ctx.is_playing = ctx.current_track.isSome

theorem CtxInv_insert {l : List (ChatId × ChatContext)} {c : ChatId}
    {ctx : ChatContext} (h : CtxInv l)
    (hc : ctx.is_playing = ctx.current_track.isSome) :
    CtxInv (dictInsert c ctx l) := by
  intro c' ctx' h'
  rw [dictLookup_insert] at h'
  by_cases hcc : c' = c
  · rw [if_pos hcc] at h'
    injection h' with h'
    exact h' ▸ hc
  · rw [if_neg hcc] at h'
    exact h c' ctx' h'

theorem vc_join_chat_ctx (st : EngineState) (c : ChatId) :
    (vc_join_chat st c).chat_contexts = st.chat_contexts := by
  unfold vc_join_chat
  split <;> rfl

theorem vc_play_audio_ctx (st : EngineState) (c : ChatId) (url : String) :
    (vc_play_audio st c url).chat_contexts = st.chat_contexts := by
  unfold vc_play_audio
  dsimp only
  split
  · rfl
  · exact vc_join_chat_ctx st c

theorem ensure_context_CtxInv (st : EngineState) (c : ChatId) (t : Nat)
    (h : CtxInv st.chat_contexts) :
    CtxInv (ensure_context st c t).chat_contexts := by
  unfold ensure_context
  cases hl : dictLookup c st.chat_contexts with
  | none => exact CtxInv_insert h rfl
  | some ctx => exact h

theorem mark_playing_CtxInv (st : EngineState) (c : ChatId) (tr : Track) (t : Nat)
    (h : CtxInv st.chat_contexts) :
    CtxInv (mark_playing st c tr t).chat_contexts := by
  unfold mark_playing
  cases hl : dictLookup c st.chat_contexts with
  | none => exact h
  | some ctx => exact CtxInv_insert h rfl

theorem play_in_chat_CtxInv (f : Track → Option String) (st : EngineState)
    (c : ChatId) (tr : Track) (u : UserId) (t : Nat) (h : CtxInv st.chat_contexts) :
    CtxInv (play_in_chat f st c tr u t).2.chat_contexts := by
  unfold play_in_chat
  have h1 := ensure_context_CtxInv st c t h
  dsimp only
  split
  · exact h1
  · cases hr : f tr with
    | none => exact h1
    | some url =>
        dsimp only
        apply mark_playing_CtxInv
        rw [vc_play_audio_ctx]
        split
        · exact h1
        · rw [vc_join_chat_ctx]
          exact h1

theorem pause_playback_CtxInv (st : EngineState) (c : ChatId)
    (h : CtxInv st.chat_contexts) :
    CtxInv (pause_playback st c).2.chat_contexts := by
  unfold pause_playback
  split
  · exact h
  · dsimp only
    cases hl : dictLookup c (vc_pause st c).chat_contexts with
    | none => exact h
    | some ctx =>
        have hctx : dictLookup c st.chat_contexts = some ctx := hl
        exact CtxInv_insert h (h c ctx hctx)

theorem resume_playback_CtxInv (st : EngineState) (c : ChatId)
    (h : CtxInv st.chat_contexts) :
    CtxInv (resume_playback st c).2.chat_contexts := by
  unfold resume_playback
  split
  · exact h
  · dsimp only
    cases hl : dictLookup c (vc_resume st c).chat_contexts with
    | none => exact h
    | some ctx =>
        have hctx : dictLookup c st.chat_contexts = some ctx := hl
        exact CtxInv_insert h (h c ctx hctx)

theorem stop_playback_CtxInv (st : EngineState) (c : ChatId)
    (h : CtxInv st.chat_contexts) :
    CtxInv (stop_playback st c).2.chat_contexts := by
  unfold stop_playback
  split
  · exact h
  · dsimp only
    cases hl : dictLookup c (vc_leave_chat st c).chat_contexts with
    | none => exact h
    | some ctx => exact CtxInv_insert h rfl

theorem set_volume_CtxInv (st : EngineState) (c : ChatId) (v : Int)
    (h : CtxInv st.chat_contexts) :
    CtxInv (set_volume st c v).2.chat_contexts := by
  unfold set_volume
  split
  · exact h
  · split
    · exact h
    · dsimp only
      cases hl : dictLookup c (vc_set_volume st c v).chat_contexts with
      | none => exact h
      | some ctx =>
          have hctx : dictLookup c st.chat_contexts = some ctx := hl
          exact CtxInv_insert h (h c ctx hctx)

theorem skip_track_CtxInv (st : EngineState) (c : ChatId)
    (h : CtxInv st.chat_contexts) :
    CtxInv (skip_track st c).2.chat_contexts := by
  unfold skip_track
  cases hl : dictLookup c st.chat_contexts with
  | none => exact h
  | some ctx =>
      dsimp only
      cases hn : (get_next st.queue_manager c).1 with
      | some it => exact h
      | none =>
          exact stop_playback_CtxInv
            { st with queue_manager := (get_next st.queue_manager c).2 } c h

theorem on_stream_end_CtxInv (st : EngineState) (c : ChatId)
    (h : CtxInv st.chat_contexts) :
    CtxInv (on_stream_end st c).chat_contexts := by
  unfold on_stream_end
  cases hl : dictLookup c st.active_chats with
  | none => exact h
  | some info => exact h

theorem step_CtxInv (st : EngineState) (op : EngOp) (h : CtxInv st.chat_contexts) :
    CtxInv (st.step op).chat_contexts := by
  cases op with
  | play c tr u t url => exact play_in_chat_CtxInv _ st c tr u t h
  | pause c => exact pause_playback_CtxInv st c h
  | resume c => exact resume_playback_CtxInv st c h
  | stop c => exact stop_playback_CtxInv st c h
  | skip c => exact skip_track_CtxInv st c h
  | setVol c v => exact set_volume_CtxInv st c v h
  | streamEnd c => exact on_stream_end_CtxInv st c h
  | enqueue c tr u t => exact h

theorem runEng_CtxInv (ops : List EngOp) (st : EngineState)
    (h : CtxInv st.chat_contexts) :
    CtxInv (runEng ops st).chat_contexts := by
  induction ops generalizing st with
  | nil => exact h
  | cons op rest ih => exact ih (st.step op) (step_CtxInv st op h)

/-- Three serialized items for chat 5, more than a capacity-2 manager holds. -/
def sItemsC10 : List SerItem :=
  [⟨⟨1⟩, 1, 1, some false⟩, ⟨⟨2⟩, 2, 2, some false⟩, ⟨⟨3⟩, 3, 3, none⟩]

/-- A snapshot whose queue for chat 5 holds 3 entries. -/
def snapC10 : QMState := ⟨[(5, sItemsC10)], []⟩

/-- C10 witness: one enqueue stays within capacity 100, and restoring the
3-entry snapshot into a capacity-2 manager keeps exactly the last 2
entries. -/
theorem c10_witness :
    ([⟨⟨0⟩, 1, 0, false⟩] : List QueueItem).length ≤ 100
    ∧ (dictLookup 5 (load_state (QueueManager.init 2 5) snapC10).queues
         = some (takeRightN (QueueManager.init 2 5).max_queue_size
             (sItemsC10.map QueueItem.from_dict))
       ∧ ((QueueManager.init 2 5).max_queue_size ≤ sItemsC10.length →
           (takeRightN (QueueManager.init 2 5).max_queue_size
             (sItemsC10.map QueueItem.from_dict)).length
             = (QueueManager.init 2 5).max_queue_size)) := by
  have h := c10_queue_capacity_invariant [QOp.enq 5 ⟨0⟩ 1 0] 5
    [⟨⟨0⟩, 1, 0, false⟩] (by decide)
  exact ⟨h.1, h.2 (QueueManager.init 2 5) snapC10 sItemsC10 rfl⟩

/-- C4 counterexample: the state reached from a fresh engine by
`play; stop; pause` on chat 1 has a context with `is_paused = true`,
`is_playing = false` and `current_track = None` — violating both claimed
invariant clauses (`is_paused → is_playing` and
`current_track = None → ¬is_paused`), because `pause_playback` flips
`is_paused` without checking the playing state. -/
theorem c4_counterexample :
    (dictLookup 1 (runEng
        [EngOp.play 1 ⟨1⟩ 7 0 (some "u"), EngOp.stop 1, EngOp.pause 1]
        initEngine).chat_contexts).map
      (fun ctx => (ctx.is_paused, ctx.is_playing, ctx.current_track))
      = some (true, false, none) := by
  decide

/-- C4 amended: in every context reachable from a fresh engine by any
sequence of orchestrator operations (play with any provider outcome,
pause, resume, stop, skip, set_volume, stream-end handling, enqueues),
`is_playing` is true exactly when `current_track` is set — in particular
`current_track = None` implies `is_playing = false`. The two `is_paused`
clauses of the claim do NOT hold (see the counterexample): pause/resume
never consult the playing state. -/
theorem c4_playing_iff_current_track (ops : List EngOp) (c : ChatId)
    (ctx : ChatContext)
    (h : dictLookup c (runEng ops initEngine).chat_contexts = some ctx) :
    ctx.is_playing = ctx.current_track.isSome := by
  have hinit : CtxInv initEngine.chat_contexts := by
    intro c' ctx' h'
    simp [initEngine, dictLookup] at h'
  exact runEng_CtxInv ops initEngine hinit c ctx h

/-- C4 witness: after a successful play on chat 1, the reachable context
is playing with a current track, satisfying the amended invariant. -/
theorem c4_witness :
    dictLookup 1 (runEng [EngOp.play 1 ⟨1⟩ 7 0 (some "u")] initEngine).chat_contexts
      = some ⟨1, true, false, some ⟨1⟩, 100, "off", 0, 0⟩
    ∧ (⟨1, true, false, some ⟨1⟩, 100, "off", 0, 0⟩ : ChatContext).is_playing
      = (⟨1, true, false, some ⟨1⟩, 100, "off", 0, 0⟩ : ChatContext).current_track.isSome :=
  ⟨by decide,
   c4_playing_iff_current_track [EngOp.play 1 ⟨1⟩ 7 0 (some "u")] 1 _ (by decide)⟩

end MusicBot
